import Mathlib

/-!
A verification development for `math::vector3<T>` (src/src/vector3.h).

The class template `vector3<T>` is embedded as a structure over an arbitrary scalar
type `T`.  Every member function is a Lean function that asks of `T` exactly the
operations its C++ body uses (`+`, `-`, `*`, `/`, the literals `0` and `2`, `==` and
`std::sqrt`).  The scalar type is then instantiated

* at a commutative ring or field (in particular `ℝ`, with `std::sqrt` read as the real
  square root) for the exact-arithmetic reading of the floating-point instantiations;
* at `cint`, the 32-bit C++ `int` with its truncating and faulting division, for the
  integer instantiation;
* at `cdouble`, the IEEE 754 binary64 `double` with its rounding, infinities and NaN;
* at `ℚ`, the finite values of `float` and `double`, for the text that `to_string` writes.

The local string stream of `to_string` is passed as an explicit state, and the numeric
conversion the stream applies to a scalar is an argument of `to_string`.
-/

namespace math

/-- The square root the scalar type offers to `std::sqrt` (vector3.h line 63). -/
class Sqrt (T : Type) where
  /-- The value `std::sqrt` returns, converted back to `T`. -/
  sqrt : T → T

/-- The class `vector3<T>`: the three public members `x`, `y`, `z` (lines 23-29).  The
constructor `vector3(T x, T y, T z)` of line 43 is `vector3.mk`, and the copy constructor
of line 52 is the identity on values. -/
structure vector3 (T : Type) where
  /-- The X component of the vector. -/
  x : T
  /-- The Y component of the vector. -/
  y : T
  /-- The Z component of the vector. -/
  z : T
  deriving DecidableEq, Repr

namespace vector3

variable {T : Type}

/-- The constructor call `self()` with all three default arguments `= 0` (line 43). -/
def default [Zero T] : vector3 T := ⟨0, 0, 0⟩

/-- The member `length_squared` (lines 70-73): `x * x + y * y + z * z`. -/
def length_squared [Add T] [Mul T] (v : vector3 T) : T :=
  v.x * v.x + v.y * v.y + v.z * v.z

/-- The member `length` (lines 61-64): `std::sqrt(length_squared())`. -/
def length [Add T] [Mul T] [Sqrt T] (v : vector3 T) : T :=
  Sqrt.sqrt v.length_squared

/-- The member `dot` (lines 80-83). -/
def dot [Add T] [Mul T] (v other : vector3 T) : T :=
  v.x * other.x + v.y * other.y + v.z * other.z

/-- The member `cross` (lines 90-99). -/
def cross [Sub T] [Mul T] (v other : vector3 T) : vector3 T :=
  let bx := other.x
  let by_ := other.y
  let bz := other.z
  ⟨v.y * bz - v.z * by_,
   v.z * bx - v.x * bz,
   v.x * by_ - v.y * bx⟩

/-- The operator `+` on two vectors (lines 128-131). -/
def op_add [Add T] (v rhs : vector3 T) : vector3 T :=
  ⟨v.x + rhs.x, v.y + rhs.y, v.z + rhs.z⟩

/-- The operator `-` on two vectors (lines 138-141). -/
def op_sub [Sub T] (v rhs : vector3 T) : vector3 T :=
  ⟨v.x - rhs.x, v.y - rhs.y, v.z - rhs.z⟩

/-- The operator `*` with a scalar right operand (lines 148-151). -/
def op_mul [Mul T] (v : vector3 T) (rhs : T) : vector3 T :=
  ⟨v.x * rhs, v.y * rhs, v.z * rhs⟩

/-- The operator `/` with a scalar right operand (lines 158-161). -/
def op_div [Div T] (v : vector3 T) (rhs : T) : vector3 T :=
  ⟨v.x / rhs, v.y / rhs, v.z / rhs⟩

/-- The operator `*` with a vector right operand (lines 168-171): `cross(rhs)`. -/
def op_mul_ref [Sub T] [Mul T] (v rhs : vector3 T) : vector3 T :=
  v.cross rhs

/-- The member `unit` (lines 105-111): the guard `l == 0` returns `self()`, otherwise the
vector is divided by its length. -/
def unit [Zero T] [Add T] [Mul T] [Div T] [Sqrt T] [DecidableEq T] (v : vector3 T) :
    vector3 T :=
  let l := v.length
  if l = 0 then default
  else v.op_div l

/-- The member `reflect` (lines 118-121): `*this - normal * (2 * this->dot(normal))`. -/
def reflect [Add T] [Sub T] [Mul T] [OfNat T 2] (v normal : vector3 T) : vector3 T :=
  v.op_sub (normal.op_mul (2 * v.dot normal))

end vector3

/-- The value an `int` computation is reduced to: the representative of `i` modulo
`2^32` in the range `-2^31 .. 2^31 - 1` of a 32-bit two's complement `int`. -/
def wrap32 (i : Int) : Int :=
  (i + 2147483648) % 4294967296 - 2147483648

/-- The scalar type `int` of the instantiation `vector3<int>`: a 32-bit value in the
range `-2^31 .. 2^31 - 1`, or `fault` once an integer division has stopped the program
(a zero divisor, or `INT_MIN / -1`). -/
inductive cint where
  /-- A value of type `int`. -/
  | ok (val : Int) (lo : -2147483648 ≤ val) (hi : val ≤ 2147483647)
  /-- The state after a faulting division; no value is produced. -/
  | fault
  deriving DecidableEq

namespace cint

/-- The `int` that holds the integer `i`, reduced modulo `2^32`. -/
def of_int (i : Int) : cint :=
  ok (wrap32 i) (by unfold wrap32; omega) (by unfold wrap32; omega)

/-- The integer a `cint` holds, when the program has not faulted. -/
def to_int : cint → Option Int
  | ok val _ _ => some val
  | fault => none

/-- The sum `a + b` of two `int`, reduced modulo `2^32`. -/
def add : cint → cint → cint
  | ok a _ _, ok b _ _ => of_int (a + b)
  | _, _ => fault

/-- The difference `a - b` of two `int`, reduced modulo `2^32`. -/
def sub : cint → cint → cint
  | ok a _ _, ok b _ _ => of_int (a - b)
  | _, _ => fault

/-- The product `a * b` of two `int`, reduced modulo `2^32`. -/
def mul : cint → cint → cint
  | ok a _ _, ok b _ _ => of_int (a * b)
  | _, _ => fault

/-- The quotient `a / b` of two `int`: it truncates toward zero, and it faults when `b`
is zero and when the quotient `INT_MIN / -1` does not fit. -/
def div : cint → cint → cint
  | ok a _ _, ok b _ _ =>
    if b = 0 ∨ (a = -2147483648 ∧ b = -1) then fault else of_int (Int.tdiv a b)
  | _, _ => fault

instance : Zero cint := ⟨of_int 0⟩
instance (n : Nat) : OfNat cint n := ⟨of_int (Int.ofNat n)⟩
instance : Add cint := ⟨add⟩
instance : Sub cint := ⟨sub⟩
instance : Mul cint := ⟨mul⟩
instance : Div cint := ⟨div⟩

end cint

/-! ### The scalar type `double`

The instantiation `vector3<double>` (line 190) computes in IEEE 754 binary64 with
rounding to nearest, ties to even.  A finite value is held by its sign, its 11-bit
exponent field and its 52-bit fraction field; every finite value is a multiple of
`2^-1074`, and an operation rounds its exact result, given as `n / 2^k`. -/

/-- A value of type `double`: a finite value `(-1)^negative * fraction * 2^-1074` when
the exponent field is `0` and `(-1)^negative * (2^52 + fraction) * 2^(exponent - 1075)`
otherwise, or an infinity, or a NaN. -/
inductive cdouble where
  /-- A finite value, zero and subnormal values included. -/
  | finite (negative : Bool) (exponent : Fin 2047) (fraction : Fin 4503599627370496)
  /-- Plus or minus infinity. -/
  | infinity (negative : Bool)
  /-- Not a number. -/
  | nan
  deriving DecidableEq

namespace cdouble

/-- The absolute value of a finite `double`, counted in units of `2^-1074`. -/
def magnitude (exponent : Fin 2047) (fraction : Fin 4503599627370496) : Nat :=
  if exponent.val = 0 then fraction.val
  else (4503599627370496 + fraction.val) * 2 ^ (exponent.val - 1)

/-- The quotient `n / 2^s` rounded to the nearest integer, ties to even. -/
def shift_round (n s : Nat) : Nat :=
  let q := n / 2 ^ s
  let r := n % 2 ^ s
  if 2 ^ s < 2 * r ∨ (2 * r = 2 ^ s ∧ q % 2 = 1) then q + 1 else q

/-- The `double` nearest to `(-1)^negative * n / 2^k`, ties to even: 53 significant bits
in the normal range, multiples of `2^-1074` below it, and an infinity from `2^1024` on. -/
def round_dyadic (negative : Bool) (n k : Nat) : cdouble :=
  if n = 0 then finite negative 0 0
  else
    let L := Nat.log2 n
    if k ≤ L + 1022 then
      let m := if 52 ≤ L then shift_round n (L - 52) else n * 2 ^ (52 - L)
      let E := if m = 9007199254740992 then L + 1024 - k else L + 1023 - k
      if h : E < 2047 then
        finite negative ⟨E, h⟩ ⟨m % 4503599627370496, Nat.mod_lt _ (by decide)⟩
      else infinity negative
    else
      let m := if 1074 ≤ k then shift_round n (k - 1074) else n * 2 ^ (1074 - k)
      finite negative ⟨if m < 4503599627370496 then 0 else 1, by split <;> decide⟩
        ⟨m % 4503599627370496, Nat.mod_lt _ (by decide)⟩

/-- The conversion of a non-negative integer literal to `double`. -/
def of_nat (n : Nat) : cdouble := round_dyadic false n 0

/-- The unary minus: the sign is flipped. -/
def neg : cdouble → cdouble
  | finite s e f => finite (!s) e f
  | infinity s => infinity (!s)
  | nan => nan

/-- The product of two `double`: the exact product rounded; zero times an infinity is a
NaN. -/
def mul : cdouble → cdouble → cdouble
  | finite s e f, finite t e2 f2 =>
    round_dyadic (xor s t) (magnitude e f * magnitude e2 f2) 2148
  | finite s e f, infinity t => if magnitude e f = 0 then nan else infinity (xor s t)
  | infinity s, finite t e f => if magnitude e f = 0 then nan else infinity (xor s t)
  | infinity s, infinity t => infinity (xor s t)
  | _, _ => nan

/-- The sum of two `double`: the exact sum rounded; an exact zero sum of opposite signs
is `+0`, and infinities of opposite signs give a NaN. -/
def add : cdouble → cdouble → cdouble
  | finite s e f, finite t e2 f2 =>
    let a := magnitude e f
    let b := magnitude e2 f2
    if s = t then round_dyadic s (a + b) 1074
    else if a = b then finite false 0 0
    else if b < a then round_dyadic s (a - b) 1074
    else round_dyadic t (b - a) 1074
  | finite _ _ _, infinity t => infinity t
  | infinity s, finite _ _ _ => infinity s
  | infinity s, infinity t => if s = t then infinity s else nan
  | _, _ => nan

/-- The difference of two `double`. -/
def sub (a b : cdouble) : cdouble := add a (neg b)

/-- The comparison `a == b` of two `double`: a NaN equals nothing, and the two zeros are
equal. -/
def equal : cdouble → cdouble → Bool
  | finite s e f, finite t e2 f2 =>
    (magnitude e f = 0 ∧ magnitude e2 f2 = 0) ∨ (s = t ∧ e = e2 ∧ f = f2)
  | infinity s, infinity t => s = t
  | _, _ => false

instance (n : Nat) : OfNat cdouble n := ⟨of_nat n⟩
instance : Add cdouble := ⟨add⟩
instance : Sub cdouble := ⟨sub⟩
instance : Mul cdouble := ⟨mul⟩
instance : Neg cdouble := ⟨neg⟩

end cdouble

/-- The exact-arithmetic reading of `std::sqrt` on `float` and `double`: the real square
root. -/
noncomputable instance : Sqrt ℝ := ⟨Real.sqrt⟩

/-- Linear dependence of two vectors: scalars `s`, `t`, not both zero, with
`a * s = b * t` component by component. -/
def linearly_dependent {T : Type} [Zero T] [Mul T] (a b : vector3 T) : Prop :=
  ∃ s t : T, (s ≠ 0 ∨ t ≠ 0) ∧ a.op_mul s = b.op_mul t

/-! ### The string stream of `to_string` -/

/-- The state of the local `std::stringstream out` of `to_string` (lines 179-182): the
characters written so far and the precision in force. -/
structure stringstream where
  /-- The characters written so far, what `out.str()` returns. -/
  str : String
  /-- The precision that numeric insertions use. -/
  precision : Int

namespace stringstream

/-- A freshly constructed stream: nothing written, precision `6`. -/
def fresh : stringstream := ⟨"", 6⟩

/-- The call `out.precision(precision)`. -/
def set_precision (out : stringstream) (precision : Int) : stringstream :=
  ⟨out.str, precision⟩

/-- The insertion `out << ", "` of a piece of text. -/
def put_text (out : stringstream) (text : String) : stringstream :=
  ⟨out.str ++ text, out.precision⟩

/-- The insertion `out << x` of a scalar: the numeric conversion `put` of the scalar
type is applied at the precision in force. -/
def put_scalar {T : Type} (put : Int → T → String) (out : stringstream) (x : T) :
    stringstream :=
  ⟨out.str ++ put out.precision x, out.precision⟩

end stringstream

/-- The member `to_string` (lines 177-183); `put` is the numeric conversion that the
stream applies to a scalar of type `T`, and the default argument of `precision` is `6`. -/
def vector3.to_string {T : Type} (put : Int → T → String) (v : vector3 T)
    (precision : Int) : String :=
  let out := stringstream.fresh
  let out := out.set_precision precision
  let out := out.put_scalar put v.x
  let out := out.put_text ", "
  let out := out.put_scalar put v.y
  let out := out.put_text ", "
  let out := out.put_scalar put v.z
  out.str

/-! ### The default conversion of floating scalars

A stream with no `fixed` or `scientific` flag converts a floating value as the `%g`
conversion of `printf` does, with the precision of the stream: the value is rounded to
`P` significant digits (`P = 1` when the precision is `0`, `P = 6` when it is negative),
written in fixed form when its decimal exponent `X` satisfies `-4 ≤ X < P` and in
exponent form otherwise, and trailing zeros of the fraction are removed.  A finite
`float` or `double` is a rational number, so the conversion is defined on `ℚ`. -/

/-- The largest `e` with `10^e * d ≤ n`, for `d ≤ n`. -/
def log10_floor_up : Nat → Nat → Nat → Nat
  | 0, _, _ => 0
  | fuel + 1, n, d => if 10 * d ≤ n then log10_floor_up fuel n (10 * d) + 1 else 0

/-- The smallest `k` with `d ≤ n * 10^k`, for `0 < n`. -/
def log10_ceil_down : Nat → Nat → Nat → Nat
  | 0, _, _ => 0
  | fuel + 1, n, d => if d ≤ n then 0 else log10_ceil_down fuel (10 * n) d + 1

/-- The decimal exponent of the positive fraction `n / d`: the `e` with
`10^e ≤ n / d < 10^(e+1)`. -/
def decimal_exponent (n d : Nat) : Int :=
  if d ≤ n then Int.ofNat (log10_floor_up n n d) else -Int.ofNat (log10_ceil_down d n d)

/-- The fraction `n / d` rounded to the nearest integer, ties to even. -/
def round_half_even (n d : Nat) : Nat :=
  let q := n / d
  let r := n % d
  if d < 2 * r then q + 1
  else if 2 * r = d ∧ q % 2 = 1 then q + 1
  else q

/-- The positive fraction `n / d` rounded to `P` significant digits: the `P`-digit
significand and the decimal exponent of its leading digit. -/
def significand (P n d : Nat) : Nat × Int :=
  let e := decimal_exponent n d
  let s : Int := e - (Int.ofNat P - 1)
  let m := if 0 ≤ s then round_half_even n (d * 10 ^ s.toNat)
           else round_half_even (n * 10 ^ (-s).toNat) d
  if m = 10 ^ P then (10 ^ (P - 1), e + 1) else (m, e)

/-- The digits of a fraction without its trailing zeros. -/
def strip_zeros (l : List Char) : List Char :=
  (l.reverse.dropWhile (fun c => c = '0')).reverse

/-- An integer part followed by what is left of the fraction, the point being written
only when a fraction digit remains. -/
def with_point (i f : List Char) : List Char :=
  match strip_zeros f with
  | [] => i
  | c :: cs => i ++ '.' :: c :: cs

/-- The digits of an exponent, at least two of them. -/
def exponent_digits (k : Nat) : List Char :=
  let t := Nat.toDigits 10 k
  if t.length < 2 then '0' :: t else t

/-- The default conversion `out << x` of a finite floating value `x` at the given
stream precision. -/
def put_general (precision : Int) (x : ℚ) : String :=
  if x.num = 0 then "0"
  else
    let P : Nat :=
      if precision < 0 then 6 else if precision = 0 then 1 else precision.toNat
    let mX := significand P x.num.natAbs x.den
    let X := mX.2
    let ds := Nat.toDigits 10 mX.1
    let body :=
      if -4 ≤ X ∧ X < Int.ofNat P then
        if 0 ≤ X then with_point (ds.take (X.toNat + 1)) (ds.drop (X.toNat + 1))
        else with_point ['0'] (List.replicate ((-X).toNat - 1) '0' ++ ds)
      else
        with_point (ds.take 1) (ds.drop 1)
          ++ 'e' :: (if X < 0 then '-' else '+') :: exponent_digits X.natAbs
    String.mk ((if x.num < 0 then ['-'] else []) ++ body)

open vector3

/-! ## Shared facts about the real instantiation -/

theorem sqrt_real_eq (r : ℝ) : (Sqrt.sqrt r : ℝ) = Real.sqrt r := rfl

theorem length_squared_nonneg_real (v : vector3 ℝ) : 0 ≤ v.length_squared := by
  unfold vector3.length_squared
  nlinarith [mul_self_nonneg v.x, mul_self_nonneg v.y, mul_self_nonneg v.z]

theorem length_squared_eq_zero_real (v : vector3 ℝ) :
    v.length_squared = 0 ↔ v.x = 0 ∧ v.y = 0 ∧ v.z = 0 := by
  unfold vector3.length_squared
  constructor
  · intro h
    have hx := mul_self_nonneg v.x
    have hy := mul_self_nonneg v.y
    have hz := mul_self_nonneg v.z
    refine ⟨?_, ?_, ?_⟩ <;> apply mul_self_eq_zero.mp <;> linarith
  · rintro ⟨hx, hy, hz⟩
    simp [hx, hy, hz]

theorem length_pos_real (v : vector3 ℝ) (h : v.x ≠ 0 ∨ v.y ≠ 0 ∨ v.z ≠ 0) :
    0 < v.length := by
  have hne : v.length_squared ≠ 0 := by
    intro h0
    obtain ⟨hx, hy, hz⟩ := (length_squared_eq_zero_real v).mp h0
    rcases h with h | h | h
    · exact h hx
    · exact h hy
    · exact h hz
  have hpos : 0 < v.length_squared :=
    lt_of_le_of_ne (length_squared_nonneg_real v) (Ne.symm hne)
  exact Real.sqrt_pos.mpr hpos

theorem length_mul_self_real (v : vector3 ℝ) : v.length * v.length = v.length_squared :=
  Real.mul_self_sqrt (length_squared_nonneg_real v)

/-! ## Normalisation -/

/-- C1: whenever `length()` of a vector is exactly zero, `unit()` takes the `l == 0`
guard and returns the zero vector `(0,0,0)`; this holds for every scalar type and every
division it may carry, so the quotient by the length plays no part and nothing fails. -/
theorem unit_of_length_eq_zero {T : Type} [Zero T] [Add T] [Mul T] [Div T] [Sqrt T]
    [DecidableEq T] (v : vector3 T) (h : v.length = 0) : v.unit = ⟨0, 0, 0⟩ := by
  simp [vector3.unit, h, vector3.default]

theorem unit_of_length_eq_zero_witness :
    (vector3.mk (0 : ℝ) 0 0).length = 0 ∧ (vector3.mk (0 : ℝ) 0 0).unit = ⟨0, 0, 0⟩ :=
  ⟨by simp [vector3.length, vector3.length_squared, sqrt_real_eq],
   unit_of_length_eq_zero _
     (by simp [vector3.length, vector3.length_squared, sqrt_real_eq])⟩

/-- C2: for every vector of real scalars with a non-zero component, the length of
`unit()` is exactly `1`. -/
theorem length_unit_eq_one (v : vector3 ℝ) (h : v.x ≠ 0 ∨ v.y ≠ 0 ∨ v.z ≠ 0) :
    v.unit.length = 1 := by
  have hpos := length_pos_real v h
  have hne : v.length ≠ 0 := ne_of_gt hpos
  have hsq := length_mul_self_real v
  have hunit : v.unit = v.op_div v.length := by
    simp [vector3.unit, hne]
  have hls : (v.op_div v.length).length_squared = 1 := by
    have : (v.op_div v.length).length_squared
        = v.length_squared / (v.length * v.length) := by
      simp only [vector3.op_div, vector3.length_squared]
      field_simp
    rw [this, hsq]
    have h0 : v.length_squared ≠ 0 := by
      rw [← hsq]; exact mul_ne_zero hne hne
    exact div_self h0
  rw [hunit]
  show Sqrt.sqrt (v.op_div v.length).length_squared = 1
  rw [hls, sqrt_real_eq, Real.sqrt_one]

theorem length_unit_eq_one_witness :
    ((3 : ℝ) ≠ 0 ∨ (4 : ℝ) ≠ 0 ∨ (0 : ℝ) ≠ 0) ∧ (vector3.mk (3 : ℝ) 4 0).unit.length = 1 :=
  ⟨Or.inl (by norm_num), length_unit_eq_one ⟨3, 4, 0⟩ (Or.inl (by norm_num))⟩

/-! ## Reflection, dot product and cross product over exact scalars -/

/-- C3: over a commutative ring of scalars, for every vector `v` and every normal `n`
with `n.dot(n) = 1`, reflecting twice across `n` gives back `v`, component by
component. -/
theorem reflect_reflect {T : Type} [CommRing T] (v n : vector3 T) (h : n.dot n = 1) :
    (v.reflect n).reflect n = v := by
  obtain ⟨vx, vy, vz⟩ := v
  obtain ⟨nx, ny, nz⟩ := n
  simp only [vector3.dot] at h
  simp only [vector3.reflect, vector3.op_sub, vector3.op_mul, vector3.dot,
    vector3.mk.injEq]
  refine ⟨?_, ?_, ?_⟩
  · linear_combination (4 * nx * (vx * nx + vy * ny + vz * nz)) * h
  · linear_combination (4 * ny * (vx * nx + vy * ny + vz * nz)) * h
  · linear_combination (4 * nz * (vx * nx + vy * ny + vz * nz)) * h

theorem reflect_reflect_witness :
    (vector3.mk (0 : ℤ) 1 0).dot ⟨0, 1, 0⟩ = 1 ∧
      ((vector3.mk (1 : ℤ) 2 3).reflect ⟨0, 1, 0⟩).reflect ⟨0, 1, 0⟩ = ⟨1, 2, 3⟩ :=
  ⟨by decide, reflect_reflect ⟨1, 2, 3⟩ ⟨0, 1, 0⟩ (by decide)⟩

/-- C4: over a commutative ring of scalars, each of the three components of
`a.cross(b)` is the negative of the same component of `b.cross(a)`. -/
theorem cross_anticomm {T : Type} [CommRing T] (a b : vector3 T) :
    (a.cross b).x = -(b.cross a).x ∧ (a.cross b).y = -(b.cross a).y ∧
      (a.cross b).z = -(b.cross a).z := by
  simp only [vector3.cross]
  refine ⟨?_, ?_, ?_⟩ <;> ring

/-- C5: `a.dot(b) == b.dot(a)` for all vectors, where `dot` is
`x*other.x + y*other.y + z*other.z`; only the commutativity of the scalar product is
used, no law of the sum. -/
theorem dot_comm {T : Type} [Add T] [CommMagma T] (a b : vector3 T) :
    a.dot b = b.dot a ∧
      a.dot b = a.x * b.x + a.y * b.y + a.z * b.z := by
  refine ⟨?_, rfl⟩
  simp only [vector3.dot]
  rw [mul_comm a.x b.x, mul_comm a.y b.y, mul_comm a.z b.z]

theorem cross_eq_zero_of_dependent {T : Type} [Field T] (a b : vector3 T)
    (h : linearly_dependent a b) : a.cross b = ⟨0, 0, 0⟩ := by
  obtain ⟨s, t, hst, heq⟩ := h
  obtain ⟨ax, ay, az⟩ := a
  obtain ⟨bx, by_, bz⟩ := b
  simp only [vector3.op_mul, vector3.mk.injEq] at heq
  obtain ⟨hx, hy, hz⟩ := heq
  simp only [vector3.cross, vector3.mk.injEq]
  rcases hst with hs | ht
  · refine ⟨?_, ?_, ?_⟩ <;> apply mul_left_cancel₀ hs
    · linear_combination bz * hy - by_ * hz
    · linear_combination bx * hz - bz * hx
    · linear_combination by_ * hx - bx * hy
  · refine ⟨?_, ?_, ?_⟩ <;> apply mul_left_cancel₀ ht
    · linear_combination az * hy - ay * hz
    · linear_combination ax * hz - az * hx
    · linear_combination ay * hx - ax * hy

theorem dependent_of_cross_eq_zero {T : Type} [Field T] (a b : vector3 T)
    (h : a.cross b = ⟨0, 0, 0⟩) : linearly_dependent a b := by
  classical
  obtain ⟨ax, ay, az⟩ := a
  obtain ⟨bx, by_, bz⟩ := b
  simp only [vector3.cross, vector3.mk.injEq] at h
  obtain ⟨h1, h2, h3⟩ := h
  by_cases hx : bx = 0
  · by_cases hy : by_ = 0
    · by_cases hz : bz = 0
      · refine ⟨0, 1, Or.inr one_ne_zero, ?_⟩
        simp [vector3.op_mul, hx, hy, hz]
      · refine ⟨bz, az, Or.inl hz, ?_⟩
        simp only [vector3.op_mul, vector3.mk.injEq]
        refine ⟨?_, ?_, ?_⟩
        · linear_combination -h2
        · linear_combination h1
        · ring
    · refine ⟨by_, ay, Or.inl hy, ?_⟩
      simp only [vector3.op_mul, vector3.mk.injEq]
      refine ⟨?_, ?_, ?_⟩
      · linear_combination h3
      · ring
      · linear_combination -h1
  · refine ⟨bx, ax, Or.inl hx, ?_⟩
    simp only [vector3.op_mul, vector3.mk.injEq]
    refine ⟨?_, ?_, ?_⟩
    · ring
    · linear_combination -h3
    · linear_combination h2

/-- C6: over the real numbers, `a.cross(b)` is the zero vector exactly when `a` and `b`
are linearly dependent (scalars `s`, `t`, not both zero, with `s*a = t*b` component-wise),
which is exactly when either operand is the zero vector or `a` is a non-zero multiple of
`b` (the operands are parallel). -/
theorem cross_eq_zero_iff (a b : vector3 ℝ) :
    (a.cross b = ⟨0, 0, 0⟩ ↔ linearly_dependent a b) ∧
      (a.cross b = ⟨0, 0, 0⟩ ↔
        (a = ⟨0, 0, 0⟩ ∨ b = ⟨0, 0, 0⟩ ∨ ∃ k : ℝ, k ≠ 0 ∧ a = b.op_mul k)) := by
  have key : a.cross b = ⟨0, 0, 0⟩ ↔ linearly_dependent a b :=
    ⟨dependent_of_cross_eq_zero a b, cross_eq_zero_of_dependent a b⟩
  refine ⟨key, ?_⟩
  rw [key]
  constructor
  · rintro ⟨s, t, hst, heq⟩
    by_cases hs : s = 0
    · have ht : t ≠ 0 := by
        rcases hst with h | h
        · exact absurd hs h
        · exact h
      right; left
      obtain ⟨bx, by_, bz⟩ := b
      simp only [vector3.op_mul, vector3.mk.injEq, hs, mul_zero] at heq
      obtain ⟨hx, hy, hz⟩ := heq
      simp only [vector3.mk.injEq]
      refine ⟨?_, ?_, ?_⟩
      · exact (mul_eq_zero.mp hx.symm).resolve_right ht
      · exact (mul_eq_zero.mp hy.symm).resolve_right ht
      · exact (mul_eq_zero.mp hz.symm).resolve_right ht
    · by_cases ht : t = 0
      · left
        obtain ⟨ax, ay, az⟩ := a
        simp only [vector3.op_mul, vector3.mk.injEq, ht, mul_zero] at heq
        obtain ⟨hx, hy, hz⟩ := heq
        simp only [vector3.mk.injEq]
        refine ⟨?_, ?_, ?_⟩
        · exact (mul_eq_zero.mp hx).resolve_right hs
        · exact (mul_eq_zero.mp hy).resolve_right hs
        · exact (mul_eq_zero.mp hz).resolve_right hs
      · right; right
        refine ⟨t / s, div_ne_zero ht hs, ?_⟩
        obtain ⟨ax, ay, az⟩ := a
        obtain ⟨bx, by_, bz⟩ := b
        simp only [vector3.op_mul, vector3.mk.injEq] at heq ⊢
        obtain ⟨hx, hy, hz⟩ := heq
        refine ⟨?_, ?_, ?_⟩
        · field_simp; exact hx
        · field_simp; exact hy
        · field_simp; exact hz
  · rintro (h | h | ⟨k, hk, h⟩)
    · refine ⟨1, 0, Or.inl one_ne_zero, ?_⟩
      simp [h, vector3.op_mul]
    · refine ⟨0, 1, Or.inr one_ne_zero, ?_⟩
      simp [h, vector3.op_mul]
    · refine ⟨1, k, Or.inl one_ne_zero, ?_⟩
      simp [h, vector3.op_mul]

theorem length_real_of_sq (v : vector3 ℝ) (l : ℝ) (hl : 0 ≤ l)
    (h : v.length_squared = l * l) : v.length = l := by
  show Sqrt.sqrt v.length_squared = l
  rw [h, sqrt_real_eq, Real.sqrt_mul_self hl]

/-- C7: for every scalar type, every vector `v` and every normal `n`, unit-length or not,
`v.reflect(n)` is `v - n * (2 * v.dot(n))` component by component, with `n` used as it is
passed.  On the reals, `v = (1,0,0)` with the normal `(2,0,0)` gives `(-7,0,0)`, whereas
its normalised form `(2,0,0).unit() = (1,0,0)` gives `(-1,0,0)`, a different vector. -/
theorem reflect_formula :
    (∀ (T : Type) [Add T] [Sub T] [Mul T] [OfNat T 2] (v n : vector3 T),
        v.reflect n = v.op_sub (n.op_mul (2 * v.dot n)) ∧
        v.reflect n = ⟨v.x - n.x * (2 * (v.x * n.x + v.y * n.y + v.z * n.z)),
                       v.y - n.y * (2 * (v.x * n.x + v.y * n.y + v.z * n.z)),
                       v.z - n.z * (2 * (v.x * n.x + v.y * n.y + v.z * n.z))⟩) ∧
      (vector3.mk (1 : ℝ) 0 0).reflect ⟨2, 0, 0⟩ = ⟨-7, 0, 0⟩ ∧
      (vector3.mk (2 : ℝ) 0 0).unit = ⟨1, 0, 0⟩ ∧
      (vector3.mk (1 : ℝ) 0 0).reflect (vector3.mk (2 : ℝ) 0 0).unit = ⟨-1, 0, 0⟩ ∧
      (vector3.mk (1 : ℝ) 0 0).reflect ⟨2, 0, 0⟩
        ≠ (vector3.mk (1 : ℝ) 0 0).reflect (vector3.mk (2 : ℝ) 0 0).unit := by
  have hlen : (vector3.mk (2 : ℝ) 0 0).length = 2 :=
    length_real_of_sq _ 2 (by norm_num) (by simp [vector3.length_squared])
  have hunit : (vector3.mk (2 : ℝ) 0 0).unit = ⟨1, 0, 0⟩ := by
    simp [vector3.unit, hlen, vector3.op_div]
  have h7 : (vector3.mk (1 : ℝ) 0 0).reflect ⟨2, 0, 0⟩ = ⟨-7, 0, 0⟩ := by
    simp only [vector3.reflect, vector3.op_sub, vector3.op_mul, vector3.dot,
      vector3.mk.injEq]
    norm_num
  have h1 : (vector3.mk (1 : ℝ) 0 0).reflect ⟨1, 0, 0⟩ = ⟨-1, 0, 0⟩ := by
    simp only [vector3.reflect, vector3.op_sub, vector3.op_mul, vector3.dot,
      vector3.mk.injEq]
    norm_num
  refine ⟨fun T _ _ _ _ v n => ⟨rfl, rfl⟩, h7, hunit, ?_, ?_⟩
  · rw [hunit, h1]
  · rw [hunit, h7, h1]
    intro h
    have hx := congrArg vector3.x h
    norm_num at hx

/-! ## Length -/

/-- C8: for every vector of real scalars, `length_squared()` and `length()` are
non-negative, and each of them is zero exactly when `x`, `y` and `z` are all zero. -/
theorem length_nonneg_and_eq_zero_iff (v : vector3 ℝ) :
    0 ≤ v.length_squared ∧ 0 ≤ v.length ∧
      (v.length = 0 ↔ v.x = 0 ∧ v.y = 0 ∧ v.z = 0) ∧
      (v.length_squared = 0 ↔ v.x = 0 ∧ v.y = 0 ∧ v.z = 0) := by
  refine ⟨length_squared_nonneg_real v, Real.sqrt_nonneg _, ?_,
    length_squared_eq_zero_real v⟩
  rw [← length_squared_eq_zero_real v]
  exact Real.sqrt_eq_zero (length_squared_nonneg_real v)

/-! ## The operators -/

theorem wrap32_of_range (i : Int) (lo : -2147483648 ≤ i) (hi : i ≤ 2147483647) :
    wrap32 i = i := by
  unfold wrap32; omega

theorem cint_div_ok (a b : Int) (la : -2147483648 ≤ a) (ha : a ≤ 2147483647)
    (lb : -2147483648 ≤ b) (hb : b ≤ 2147483647) :
    cint.ok a la ha / cint.ok b lb hb
      = if b = 0 ∨ (a = -2147483648 ∧ b = -1) then cint.fault
        else cint.of_int (Int.tdiv a b) := rfl

theorem cint_to_int_eq_some (x : cint) (xv : Int) (h : x.to_int = some xv) :
    ∃ (lo : -2147483648 ≤ xv) (hi : xv ≤ 2147483647), x = cint.ok xv lo hi := by
  cases x with
  | ok a la ha =>
    simp only [cint.to_int, Option.some.injEq] at h
    subst h
    exact ⟨la, ha, rfl⟩
  | fault => simp [cint.to_int] at h

theorem tdiv_one_eq_zero (sv : Int) (h : 1 < |sv|) : Int.tdiv 1 sv = 0 := by
  rcases le_or_lt 0 sv with hs | hs
  · rw [abs_of_nonneg hs] at h
    exact Int.tdiv_eq_zero_of_lt (by decide) h
  · rw [abs_of_neg hs] at h
    have hneg : Int.tdiv 1 (-(-sv)) = -(Int.tdiv 1 (-sv)) := Int.tdiv_neg 1 (-sv)
    rw [neg_neg] at hneg
    rw [hneg, Int.tdiv_eq_zero_of_lt (by decide) h]
    rfl

theorem tdiv_range (xv sv : Int) (lo : -2147483648 ≤ xv) (hi : xv ≤ 2147483647)
    (h : 1 < |sv|) : -2147483648 ≤ Int.tdiv xv sv ∧ Int.tdiv xv sv ≤ 2147483647 := by
  have hn := Int.natAbs_tdiv xv sv
  rw [Int.abs_eq_natAbs] at h
  have h2 : 2 ≤ sv.natAbs := by omega
  have hle : xv.natAbs / sv.natAbs ≤ xv.natAbs / 2 :=
    Nat.div_le_div_left h2 (by decide)
  have hdiv : (xv.natAbs).div (sv.natAbs) = xv.natAbs / sv.natAbs := rfl
  rw [hdiv] at hn
  omega

theorem cint_one_div (s : cint) (sv : Int) (hs : s.to_int = some sv) (h : 1 < |sv|) :
    (1 : cint) / s = 0 := by
  obtain ⟨lo, hi, rfl⟩ := cint_to_int_eq_some s sv hs
  have h1 : (1 : cint) = cint.ok 1 (by decide) (by decide) := rfl
  have hne0 : sv ≠ 0 := by
    rintro rfl
    simp at h
  rw [h1, cint_div_ok, if_neg, tdiv_one_eq_zero sv h]
  · rfl
  · rintro (h0 | ⟨h0, -⟩)
    · exact hne0 h0
    · exact absurd h0 (by decide)

theorem cint_div_to_int (x s : cint) (xv sv : Int) (hx : x.to_int = some xv)
    (hs : s.to_int = some sv) (h : 1 < |sv|) :
    (x / s).to_int = some (Int.tdiv xv sv) := by
  obtain ⟨lo, hi, rfl⟩ := cint_to_int_eq_some s sv hs
  obtain ⟨lx, hx2, rfl⟩ := cint_to_int_eq_some x xv hx
  have hne : ¬ (sv = 0 ∨ (xv = -2147483648 ∧ sv = -1)) := by
    rintro (h0 | ⟨-, h0⟩)
    · subst h0; simp at h
    · subst h0; simp at h
  obtain ⟨r1, r2⟩ := tdiv_range xv sv lx hx2 h
  rw [cint_div_ok, if_neg hne]
  show some (wrap32 (Int.tdiv xv sv)) = some (Int.tdiv xv sv)
  rw [wrap32_of_range _ r1 r2]

theorem cint_mul_zero (x : cint) (xv : Int) (hx : x.to_int = some xv) :
    x * (0 : cint) = 0 := by
  obtain ⟨lx, hx2, rfl⟩ := cint_to_int_eq_some x xv hx
  show cint.of_int (xv * wrap32 (Int.ofNat 0)) = cint.of_int (Int.ofNat 0)
  have h0 : wrap32 (Int.ofNat 0) = 0 := by decide
  rw [h0, mul_zero]
  rfl

theorem cint_div_zero (x : cint) : x / (0 : cint) = cint.fault := by
  cases x with
  | ok a la ha => rfl
  | fault => rfl

/-- C9, as stated, fails on the integer instantiation: with `int` scalars
`(4,4,4) / 2` is `(2,2,2)`, while `1 / 2` is `0` and `(4,4,4) * (1 / 2)` is `(0,0,0)`. -/
theorem op_div_ne_op_mul_inv_cint :
    (vector3.mk (4 : cint) 4 4).op_div 2 = ⟨2, 2, 2⟩ ∧
      (vector3.mk (4 : cint) 4 4).op_mul (1 / 2) = ⟨0, 0, 0⟩ ∧
      ¬ ((vector3.mk (4 : cint) 4 4).op_div 2
          = (vector3.mk (4 : cint) 4 4).op_mul (1 / 2)) := by
  decide

/-- C9, amended: for every scalar type, `v / s` is `(v.x / s, v.y / s, v.z / s)`, each
component divided by `s` with the division of the scalar type itself, and it equals
`v * (1 / s)` exactly when that arithmetic gives `a / s = a * (1 / s)` for `a` each of
`x`, `y`, `z`.  Every field does.  The 32-bit `int` does not: for every `s` with
`|s| > 1` the quotient `1 / s` is `0` and `v * (1 / s)` is the zero vector, while the
components of `v / s` are the quotients truncated toward zero; dividing by `0`, and
`INT_MIN` by `-1`, faults. -/
theorem op_div_eq_op_mul_inv :
    (∀ (T : Type) [Div T] (v : vector3 T) (s : T),
        v.op_div s = ⟨v.x / s, v.y / s, v.z / s⟩) ∧
      (∀ (T : Type) [Mul T] [Div T] [OfNat T 1] (v : vector3 T) (s : T),
        v.op_div s = v.op_mul (1 / s) ↔
          (v.x / s = v.x * (1 / s) ∧ v.y / s = v.y * (1 / s) ∧
            v.z / s = v.z * (1 / s))) ∧
      (∀ (T : Type) [Field T] (v : vector3 T) (s : T),
        v.op_div s = v.op_mul (1 / s)) ∧
      (∀ (s : cint) (sv : Int), s.to_int = some sv → 1 < |sv| →
        (1 : cint) / s = 0 ∧
        ∀ (v : vector3 cint) (xv yv zv : Int),
          v.x.to_int = some xv → v.y.to_int = some yv → v.z.to_int = some zv →
          v.op_mul (1 / s) = ⟨0, 0, 0⟩ ∧
          (v.op_div s).x.to_int = some (Int.tdiv xv sv) ∧
          (v.op_div s).y.to_int = some (Int.tdiv yv sv) ∧
          (v.op_div s).z.to_int = some (Int.tdiv zv sv)) ∧
      (∀ v : vector3 cint, v.op_div 0 = ⟨cint.fault, cint.fault, cint.fault⟩) ∧
      (vector3.mk (cint.of_int (-2147483648)) 0 0).op_div (cint.of_int (-1))
        = ⟨cint.fault, 0, 0⟩ := by
  refine ⟨fun T _ v s => rfl, fun T _ _ _ v s => ?_, fun T _ v s => ?_,
    fun s sv hs h => ⟨cint_one_div s sv hs h, fun v xv yv zv hx hy hz => ?_⟩,
    fun v => ?_, by decide⟩
  · simp only [vector3.op_div, vector3.op_mul, vector3.mk.injEq]
  · have h : ∀ a : T, a / s = a * (1 / s) := fun a => div_eq_mul_one_div a s
    show vector3.mk (v.x / s) (v.y / s) (v.z / s)
      = vector3.mk (v.x * (1 / s)) (v.y * (1 / s)) (v.z * (1 / s))
    rw [h v.x, h v.y, h v.z]
  · refine ⟨?_, cint_div_to_int _ _ _ _ hx hs h, cint_div_to_int _ _ _ _ hy hs h,
      cint_div_to_int _ _ _ _ hz hs h⟩
    simp only [vector3.op_mul, cint_one_div s sv hs h, cint_mul_zero _ _ hx,
      cint_mul_zero _ _ hy, cint_mul_zero _ _ hz]
  · simp only [vector3.op_div, cint_div_zero]

theorem op_div_eq_op_mul_inv_witness :
    (2 : cint).to_int = some 2 ∧ (1 : Int) < |2| ∧
      (vector3.mk (7 : cint) (cint.of_int (-7)) 4).op_mul (1 / 2) = ⟨0, 0, 0⟩ ∧
      ((vector3.mk (7 : cint) (cint.of_int (-7)) 4).op_div 2).y.to_int
        = some (Int.tdiv (-7) 2) :=
  ⟨by decide, by decide,
   ((op_div_eq_op_mul_inv.2.2.2.1 2 2 (by decide) (by decide)).2
      ⟨7, cint.of_int (-7), 4⟩ 7 (-7) 4 (by decide) (by decide) (by decide)).1,
   ((op_div_eq_op_mul_inv.2.2.2.1 2 2 (by decide) (by decide)).2
      ⟨7, cint.of_int (-7), 4⟩ 7 (-7) 4 (by decide) (by decide) (by decide)).2.2.1⟩

/-- C10: the operator `*` with a vector right operand returns exactly `a.cross(b)`, namely
`(a.y*b.z - a.z*b.y, a.z*b.x - a.x*b.z, a.x*b.y - a.y*b.x)`; the operator `*` with a
scalar right operand scales each component, and is a different operation: no scalar `s`
makes `(1,0,0) * s` equal to `(1,0,0) * (0,1,0) = (0,0,1)`. -/
theorem op_mul_ref_eq_cross :
    (∀ (T : Type) [Sub T] [Mul T] (a b : vector3 T),
        a.op_mul_ref b = a.cross b ∧
        a.op_mul_ref b = ⟨a.y * b.z - a.z * b.y, a.z * b.x - a.x * b.z,
                          a.x * b.y - a.y * b.x⟩) ∧
      (∀ (T : Type) [Mul T] (a : vector3 T) (s : T),
        a.op_mul s = ⟨a.x * s, a.y * s, a.z * s⟩) ∧
      (vector3.mk (1 : ℤ) 0 0).op_mul_ref ⟨0, 1, 0⟩ = ⟨0, 0, 1⟩ ∧
      (∀ s : ℤ, (vector3.mk (1 : ℤ) 0 0).op_mul s
        ≠ (vector3.mk (1 : ℤ) 0 0).op_mul_ref ⟨0, 1, 0⟩) := by
  refine ⟨fun T _ _ a b => ⟨rfl, rfl⟩, fun T _ a s => rfl, by decide, fun s h => ?_⟩
  have hz := congrArg vector3.z h
  simp [vector3.op_mul, vector3.op_mul_ref, vector3.cross] at hz

/-! ## Further shared facts about the real instantiation -/

theorem length_eq_zero_real (v : vector3 ℝ) :
    v.length = 0 ↔ v.x = 0 ∧ v.y = 0 ∧ v.z = 0 := by
  rw [← length_squared_eq_zero_real v]
  exact Real.sqrt_eq_zero (length_squared_nonneg_real v)

theorem unit_eq_op_div_real (v : vector3 ℝ) (h : v.length ≠ 0) :
    v.unit = v.op_div v.length := by
  simp [vector3.unit, h]

theorem unit_eq_default_real (v : vector3 ℝ) (h : v.length = 0) :
    v.unit = ⟨0, 0, 0⟩ := by
  simp [vector3.unit, h, vector3.default]

theorem length_op_div_length_real (v : vector3 ℝ) (h : v.length ≠ 0) :
    (v.op_div v.length).length = 1 := by
  have hsq := length_mul_self_real v
  have h0 : v.length_squared ≠ 0 := by
    rw [← hsq]; exact mul_ne_zero h h
  apply length_real_of_sq _ 1 zero_le_one
  have : (v.op_div v.length).length_squared
      = v.length_squared / (v.length * v.length) := by
    simp only [vector3.op_div, vector3.length_squared]
    field_simp
  rw [this, hsq, div_self h0, mul_one]

theorem unit_of_length_one_real (v : vector3 ℝ) (h : v.length = 1) : v.unit = v := by
  have hne : v.length ≠ 0 := by rw [h]; exact one_ne_zero
  rw [unit_eq_op_div_real v hne, h]
  simp [vector3.op_div]

theorem length_demo_incident : (vector3.mk (2 : ℝ) (-1) 1).length = Real.sqrt 6 := by
  show Sqrt.sqrt (vector3.mk (2 : ℝ) (-1) 1).length_squared = Real.sqrt 6
  rw [sqrt_real_eq]
  congr 1
  simp only [vector3.length_squared]
  norm_num

theorem sqrt_six_bounds : (2.449 : ℝ) < Real.sqrt 6 ∧ Real.sqrt 6 < 2.45 := by
  constructor
  · apply Real.lt_sqrt_of_sq_lt
    norm_num
  · rw [Real.sqrt_lt' (by norm_num)]
    norm_num

theorem unit_demo_incident :
    (vector3.mk (2 : ℝ) (-1) 1).unit
      = ⟨2 / Real.sqrt 6, -1 / Real.sqrt 6, 1 / Real.sqrt 6⟩ := by
  have hpos : (0 : ℝ) < Real.sqrt 6 := by linarith [sqrt_six_bounds.1]
  have hne : (vector3.mk (2 : ℝ) (-1) 1).length ≠ 0 := by
    rw [length_demo_incident]; exact ne_of_gt hpos
  rw [unit_eq_op_div_real _ hne, length_demo_incident]
  rfl

theorem two_div_sqrt_six_near : |2 / Real.sqrt 6 - (0.816 : ℝ)| < 0.001 := by
  obtain ⟨h1, h2⟩ := sqrt_six_bounds
  have hpos : (0 : ℝ) < Real.sqrt 6 := by linarith
  rw [abs_lt]
  constructor
  · have : (0.815 : ℝ) < 2 / Real.sqrt 6 := by
      rw [lt_div_iff₀ hpos]; linarith
    linarith
  · have : 2 / Real.sqrt 6 < (0.817 : ℝ) := by
      rw [div_lt_iff₀ hpos]; linarith
    linarith

theorem one_div_sqrt_six_near : |1 / Real.sqrt 6 - (0.408 : ℝ)| < 0.001 := by
  obtain ⟨h1, h2⟩ := sqrt_six_bounds
  have hpos : (0 : ℝ) < Real.sqrt 6 := by linarith
  rw [abs_lt]
  constructor
  · have : (0.407 : ℝ) < 1 / Real.sqrt 6 := by
      rw [lt_div_iff₀ hpos]; linarith
    linarith
  · have : 1 / Real.sqrt 6 < (0.409 : ℝ) := by
      rw [div_lt_iff₀ hpos]; linarith
    linarith

/-! ## The demonstration scenarios -/

section double_scalars

open cdouble

set_option maxRecDepth 8192

/-! ### Facts about the `double` arithmetic -/

theorem log2_eq_of_bounds (n v : Nat) (h1 : 2 ^ v ≤ n) (h2 : n < 2 ^ (v + 1)) :
    Nat.log2 n = v := by
  have hp : 0 < 2 ^ v := Nat.two_pow_pos _
  have hn : n ≠ 0 := by omega
  have a : Nat.log2 n < v + 1 := (Nat.log2_lt hn).mpr h2
  have b : ¬ (Nat.log2 n < v) := by
    intro hlt
    have := (Nat.log2_lt hn).mp hlt
    omega
  omega

theorem shift_round_mul_pow (c i : Nat) : shift_round (c * 2 ^ i) i = c := by
  have hp : 0 < 2 ^ i := Nat.two_pow_pos _
  have hq : c * 2 ^ i / 2 ^ i = c := Nat.mul_div_cancel c hp
  have hr : c * 2 ^ i % 2 ^ i = 0 := Nat.mul_mod_left _ _
  unfold shift_round
  simp only [hq, hr]
  rw [if_neg]
  rintro (h | ⟨h, -⟩) <;> omega

theorem magnitude_eq_zero (e : Fin 2047) (f : Fin 4503599627370496)
    (h : magnitude e f = 0) : e = 0 ∧ f = 0 := by
  unfold magnitude at h
  by_cases he : e.val = 0
  · rw [if_pos he] at h
    exact ⟨Fin.ext he, Fin.ext h⟩
  · rw [if_neg he] at h
    have hp : 0 < 2 ^ (e.val - 1) := Nat.two_pow_pos _
    have : 0 < (4503599627370496 + f.val) * 2 ^ (e.val - 1) :=
      Nat.mul_pos (by omega) hp
    omega

theorem round_dyadic_magnitude (s : Bool) (e : Fin 2047) (f : Fin 4503599627370496)
    (j : Nat) : round_dyadic s (magnitude e f * 2 ^ j) (1074 + j) = finite s e f := by
  have hpj : 0 < 2 ^ j := Nat.two_pow_pos _
  by_cases hM : magnitude e f = 0
  · obtain ⟨he, hf⟩ := magnitude_eq_zero e f hM
    subst he; subst hf
    simp [round_dyadic, hM]
  · have hn : magnitude e f * 2 ^ j ≠ 0 := Nat.mul_ne_zero hM (by omega)
    by_cases he : e.val = 0
    · have hMf : magnitude e f = f.val := by simp [magnitude, he]
      have hlt : magnitude e f * 2 ^ j < 2 ^ (52 + j) := by
        rw [hMf, Nat.pow_add]
        exact Nat.mul_lt_mul_of_lt_of_le f.isLt (le_refl _) hpj
      have hL : Nat.log2 (magnitude e f * 2 ^ j) < 52 + j := (Nat.log2_lt hn).mpr hlt
      have hk : ¬ (1074 + j ≤ Nat.log2 (magnitude e f * 2 ^ j) + 1022) := by omega
      unfold round_dyadic
      rw [if_neg hn]
      simp only [if_neg hk, if_pos (Nat.le_add_right 1074 j), Nat.add_sub_cancel_left,
        shift_round_mul_pow]
      rw [hMf]
      have hf := f.isLt
      congr 1
      · apply Fin.ext
        simp [hf, he]
      · apply Fin.ext
        simp [Nat.mod_eq_of_lt hf]
    · have hf := f.isLt
      have hMc : magnitude e f * 2 ^ j
          = (4503599627370496 + f.val) * 2 ^ (e.val - 1 + j) := by
        simp only [magnitude, if_neg he]
        rw [Nat.mul_assoc, ← Nat.pow_add]
      have hpi : 0 < 2 ^ (e.val - 1 + j) := Nat.two_pow_pos _
      have hlo : 2 ^ (52 + (e.val - 1 + j)) ≤ magnitude e f * 2 ^ j := by
        rw [hMc, Nat.pow_add 2 52]
        exact Nat.mul_le_mul_right _
          (le_trans (by norm_num : 2 ^ 52 ≤ 4503599627370496) (Nat.le_add_right _ _))
      have hhi : magnitude e f * 2 ^ j < 2 ^ (52 + (e.val - 1 + j) + 1) := by
        rw [hMc, show 52 + (e.val - 1 + j) + 1 = 53 + (e.val - 1 + j) by omega,
          Nat.pow_add 2 53]
        have h53 : 4503599627370496 + f.val < 2 ^ 53 := by
          have : (2 : Nat) ^ 53 = 9007199254740992 := by norm_num
          omega
        exact Nat.mul_lt_mul_of_lt_of_le h53 (le_refl _) hpi
      have hL := log2_eq_of_bounds _ _ hlo hhi
      have hk : 1074 + j ≤ Nat.log2 (magnitude e f * 2 ^ j) + 1022 := by omega
      have h52 : 52 ≤ Nat.log2 (magnitude e f * 2 ^ j) := by omega
      have hsh : Nat.log2 (magnitude e f * 2 ^ j) - 52 = e.val - 1 + j := by omega
      have hm : shift_round (magnitude e f * 2 ^ j) (e.val - 1 + j)
          = 4503599627370496 + f.val := by
        rw [hMc]; exact shift_round_mul_pow _ _
      have hne53 : ¬ (4503599627370496 + f.val = 9007199254740992) := by omega
      have hE : Nat.log2 (magnitude e f * 2 ^ j) + 1023 - (1074 + j) = e.val := by omega
      have helt := e.isLt
      unfold round_dyadic
      rw [if_neg hn]
      simp only [if_pos hk, if_pos h52, hsh, hm, if_neg hne53, hE, dif_pos helt]
      congr 1
      apply Fin.ext
      show (4503599627370496 + f.val) % 4503599627370496 = f.val
      omega


theorem magnitude_zero : magnitude 0 0 = 0 := by
  simp [magnitude]

theorem magnitude_normal (e : Fin 2047) (f : Fin 4503599627370496) (he : e.val ≠ 0) :
    magnitude e f = (4503599627370496 + f.val) * 2 ^ (e.val - 1) := by
  unfold magnitude
  rw [if_neg he]

theorem two_pow_52 : (4503599627370496 : Nat) = 2 ^ 52 := by norm_num

theorem two_pow_mul (a b c : Nat) (h : a + b = c) : 2 ^ a * 2 ^ b = 2 ^ c := by
  subst h
  rw [Nat.pow_add]

theorem two_mul_two_pow (a c : Nat) (h : a + 1 = c) : 2 * 2 ^ a = 2 ^ c := by
  subst h
  rw [Nat.pow_succ']

theorem magnitude_one : magnitude ⟨1023, by decide⟩ 0 = 2 ^ 1074 := by
  rw [magnitude_normal _ _ (by decide)]
  have h0 : ((0 : Fin 4503599627370496) : Nat) = 0 := rfl
  have h1 : ((⟨1023, by decide⟩ : Fin 2047) : Nat) - 1 = 1022 := rfl
  rw [h0, h1, Nat.add_zero, two_pow_52]
  exact two_pow_mul 52 1022 1074 (by decide)

theorem magnitude_two : magnitude ⟨1024, by decide⟩ 0 = 2 ^ 1075 := by
  rw [magnitude_normal _ _ (by decide)]
  have h0 : ((0 : Fin 4503599627370496) : Nat) = 0 := rfl
  have h1 : ((⟨1024, by decide⟩ : Fin 2047) : Nat) - 1 = 1023 := rfl
  rw [h0, h1, Nat.add_zero, two_pow_52]
  exact two_pow_mul 52 1023 1075 (by decide)

theorem round_dyadic_magnitude_zero (s : Bool) (e : Fin 2047)
    (f : Fin 4503599627370496) :
    round_dyadic s (magnitude e f) 1074 = finite s e f := by
  have h := round_dyadic_magnitude s e f 0
  rw [Nat.pow_zero, Nat.mul_one, Nat.add_zero] at h
  exact h

theorem log2_one : Nat.log2 1 = 0 := log2_eq_of_bounds 1 0 (by decide) (by decide)

theorem log2_two : Nat.log2 2 = 1 := log2_eq_of_bounds 2 1 (by decide) (by decide)

theorem cdouble_zero_eq : (0 : cdouble) = finite false 0 0 := by
  show round_dyadic false 0 0 = _
  unfold round_dyadic
  decide

theorem cdouble_one_eq : (1 : cdouble) = finite false ⟨1023, by decide⟩ 0 := by
  show round_dyadic false 1 0 = _
  unfold round_dyadic
  simp only [log2_one]
  decide

theorem cdouble_two_eq : (2 : cdouble) = finite false ⟨1024, by decide⟩ 0 := by
  show round_dyadic false 2 0 = _
  unfold round_dyadic
  simp only [log2_two]
  decide

theorem cdouble_mul_finite (s t : Bool) (e e2 : Fin 2047) (f f2 : Fin 4503599627370496) :
    finite s e f * finite t e2 f2
      = round_dyadic (xor s t) (magnitude e f * magnitude e2 f2) 2148 := rfl

theorem cdouble_mul_zero (s t : Bool) (e : Fin 2047) (f : Fin 4503599627370496) :
    finite s e f * finite t 0 0 = finite (xor s t) 0 0 := by
  rw [cdouble_mul_finite, magnitude_zero, Nat.mul_zero]
  simp [round_dyadic]

theorem cdouble_zero_mul (s t : Bool) (e : Fin 2047) (f : Fin 4503599627370496) :
    finite t 0 0 * finite s e f = finite (xor t s) 0 0 := by
  rw [cdouble_mul_finite, magnitude_zero, Nat.zero_mul]
  simp [round_dyadic]

theorem cdouble_mul_one (s : Bool) (e : Fin 2047) (f : Fin 4503599627370496) :
    finite s e f * finite false ⟨1023, by decide⟩ 0 = finite s e f := by
  rw [cdouble_mul_finite, magnitude_one, Bool.xor_false]
  exact round_dyadic_magnitude s e f 1074

theorem cdouble_one_mul (s : Bool) (e : Fin 2047) (f : Fin 4503599627370496) :
    finite false ⟨1023, by decide⟩ 0 * finite s e f = finite s e f := by
  rw [cdouble_mul_finite, magnitude_one, Bool.false_xor, Nat.mul_comm]
  exact round_dyadic_magnitude s e f 1074

theorem magnitude_double (e : Fin 2047) (f : Fin 4503599627370496) (h : e.val < 2046) :
    ∃ (e2 : Fin 2047) (f2 : Fin 4503599627370496),
      magnitude e2 f2 = 2 * magnitude e f := by
  have hf := f.isLt
  by_cases he : e.val = 0
  · by_cases h2 : 2 * f.val < 4503599627370496
    · refine ⟨0, ⟨2 * f.val, h2⟩, ?_⟩
      simp [magnitude, he]
    · refine ⟨1, ⟨2 * f.val - 4503599627370496, by omega⟩, ?_⟩
      simp only [magnitude, he, if_true]
      show (if (1 : Fin 2047).val = 0 then _ else _) = _
      simp only [Fin.val_one, if_neg (by decide : ¬ (1 = 0)), Nat.sub_self, Nat.pow_zero,
        Nat.mul_one]
      omega
  · refine ⟨⟨e.val + 1, by omega⟩, f, ?_⟩
    simp only [magnitude, he, if_false, Nat.add_one_ne_zero, Nat.add_sub_cancel]
    have : 2 ^ e.val = 2 * 2 ^ (e.val - 1) := by
      rw [← Nat.pow_succ']
      congr 1
      omega
    rw [this]
    ring

theorem cdouble_two_mul (s : Bool) (e : Fin 2047) (f : Fin 4503599627370496)
    (h : e.val < 2046) :
    ∃ (e2 : Fin 2047) (f2 : Fin 4503599627370496),
      finite false ⟨1024, by decide⟩ 0 * finite s e f = finite s e2 f2 ∧
      magnitude e2 f2 = 2 * magnitude e f := by
  obtain ⟨e2, f2, hm⟩ := magnitude_double e f h
  refine ⟨e2, f2, ?_, hm⟩
  rw [cdouble_mul_finite, magnitude_two, Bool.false_xor]
  have h75 : 2 ^ 1075 = 2 * 2 ^ 1074 := (two_mul_two_pow 1074 1075 rfl).symm
  have : 2 ^ 1075 * magnitude e f = magnitude e2 f2 * 2 ^ 1074 := by
    rw [hm, h75]; ring
  rw [this]
  exact round_dyadic_magnitude s e2 f2 1074

theorem cdouble_add_finite (s t : Bool) (e e2 : Fin 2047) (f f2 : Fin 4503599627370496) :
    finite s e f + finite t e2 f2
      = if s = t then round_dyadic s (magnitude e f + magnitude e2 f2) 1074
        else if magnitude e f = magnitude e2 f2 then finite false 0 0
        else if magnitude e2 f2 < magnitude e f then
          round_dyadic s (magnitude e f - magnitude e2 f2) 1074
        else round_dyadic t (magnitude e2 f2 - magnitude e f) 1074 := rfl

theorem cdouble_add_zero_left (s t : Bool) (e : Fin 2047) (f : Fin 4503599627370496) :
    finite s 0 0 + finite t e f
      = if magnitude e f = 0 then finite (s && t) 0 0 else finite t e f := by
  rw [cdouble_add_finite, magnitude_zero, Nat.zero_add, Nat.sub_zero]
  by_cases hM : magnitude e f = 0
  · obtain ⟨he, hf⟩ := magnitude_eq_zero e f hM
    subst he; subst hf
    rw [if_pos hM]
    by_cases hst : s = t
    · subst hst
      rw [if_pos rfl, magnitude_zero]
      simp [round_dyadic]
    · rw [if_neg hst, magnitude_zero, if_pos rfl]
      cases s <;> cases t <;> simp at hst ⊢
  · rw [if_neg hM]
    by_cases hst : s = t
    · subst hst
      rw [if_pos rfl]
      exact round_dyadic_magnitude_zero _ _ _
    · rw [if_neg hst, if_neg (fun h => hM h.symm), if_neg (Nat.not_lt_zero _)]
      exact round_dyadic_magnitude_zero _ _ _

theorem cdouble_add_zero_right (s t : Bool) (e : Fin 2047) (f : Fin 4503599627370496) :
    finite t e f + finite s 0 0
      = if magnitude e f = 0 then finite (t && s) 0 0 else finite t e f := by
  rw [cdouble_add_finite, magnitude_zero, Nat.add_zero, Nat.sub_zero]
  by_cases hM : magnitude e f = 0
  · obtain ⟨he, hf⟩ := magnitude_eq_zero e f hM
    subst he; subst hf
    rw [if_pos hM]
    by_cases hst : t = s
    · subst hst
      rw [if_pos rfl, magnitude_zero]
      simp [round_dyadic]
    · rw [if_neg hst, magnitude_zero, if_pos rfl]
      cases s <;> cases t <;> simp at hst ⊢
  · have hpos : 0 < magnitude e f := Nat.pos_of_ne_zero hM
    by_cases hst : t = s
    · subst hst
      simp only [if_pos rfl, if_neg hM]
      exact round_dyadic_magnitude_zero _ _ _
    · simp only [if_neg hst, if_neg hM, if_pos hpos]
      exact round_dyadic_magnitude_zero _ _ _

theorem cdouble_sub_eq (a b : cdouble) : a - b = a + cdouble.neg b := rfl

theorem cdouble_neg_finite (s : Bool) (e : Fin 2047) (f : Fin 4503599627370496) :
    -(finite s e f) = finite (!s) e f := rfl

theorem cdouble_equal_self (s : Bool) (e : Fin 2047) (f : Fin 4503599627370496) :
    cdouble.equal (finite s e f) (finite s e f) = true := by
  simp [cdouble.equal]

theorem cdouble_equal_zero (s t : Bool) :
    cdouble.equal (finite s 0 0) (finite t 0 0) = true := by
  simp [cdouble.equal, magnitude_zero]

theorem cdouble_sub_zero_equal (s t : Bool) (e : Fin 2047) (f : Fin 4503599627370496) :
    cdouble.equal (finite s e f - finite t 0 0) (finite s e f) = true := by
  rw [cdouble_sub_eq]
  show cdouble.equal (finite s e f + finite (!t) 0 0) (finite s e f) = true
  rw [cdouble_add_zero_right]
  by_cases hM : magnitude e f = 0
  · obtain ⟨he, hf⟩ := magnitude_eq_zero e f hM
    subst he; subst hf
    rw [if_pos hM]
    exact cdouble_equal_zero _ _
  · rw [if_neg hM]
    exact cdouble_equal_self _ _ _

theorem cdouble_dot_normal_y (sx sy sz : Bool) (ex ey ez : Fin 2047)
    (fx fy fz : Fin 4503599627370496) :
    (vector3.mk (finite sx ex fx) (finite sy ey fy) (finite sz ez fz)).dot ⟨0, 1, 0⟩
      = if magnitude ey fy = 0 then finite (sx && sy && sz) 0 0 else finite sy ey fy := by
  simp only [vector3.dot]
  rw [cdouble_zero_eq, cdouble_one_eq, cdouble_mul_zero, cdouble_mul_one, cdouble_mul_zero,
    Bool.xor_false, Bool.xor_false, cdouble_add_zero_left]
  by_cases hM : magnitude ey fy = 0
  · simp only [if_pos hM]
    rw [cdouble_add_zero_right, magnitude_zero, if_pos rfl]
  · simp only [if_neg hM]
    rw [cdouble_add_zero_right, if_neg hM]

theorem cdouble_reflect_components (sx sz sc : Bool) (ex ez ec : Fin 2047)
    (fx fz fc : Fin 4503599627370496) (y : cdouble) :
    (vector3.mk (finite sx ex fx) y (finite sz ez fz)).op_sub
        ((vector3.mk (0 : cdouble) 1 0).op_mul (finite sc ec fc))
      = ⟨finite sx ex fx - finite sc 0 0, y - finite sc ec fc,
         finite sz ez fz - finite sc 0 0⟩ := by
  simp only [vector3.op_sub, vector3.op_mul]
  rw [cdouble_zero_eq, cdouble_one_eq, cdouble_zero_mul, cdouble_one_mul, Bool.false_xor]

theorem cdouble_reflect_finite (sx sy sz : Bool) (ex ey ez : Fin 2047)
    (fx fy fz : Fin 4503599627370496) (h : ey.val < 2046) :
    cdouble.equal ((vector3.mk (finite sx ex fx) (finite sy ey fy)
        (finite sz ez fz)).reflect ⟨0, 1, 0⟩).x (finite sx ex fx) = true ∧
      cdouble.equal ((vector3.mk (finite sx ex fx) (finite sy ey fy)
        (finite sz ez fz)).reflect ⟨0, 1, 0⟩).y (-(finite sy ey fy)) = true ∧
      cdouble.equal ((vector3.mk (finite sx ex fx) (finite sy ey fy)
        (finite sz ez fz)).reflect ⟨0, 1, 0⟩).z (finite sz ez fz) = true := by
  unfold vector3.reflect
  rw [cdouble_dot_normal_y, cdouble_two_eq]
  by_cases hM : magnitude ey fy = 0
  · obtain ⟨he, hf⟩ := magnitude_eq_zero ey fy hM
    subst he; subst hf
    rw [if_pos hM, cdouble_mul_zero, cdouble_reflect_components]
    refine ⟨cdouble_sub_zero_equal _ _ _ _, ?_, cdouble_sub_zero_equal _ _ _ _⟩
    rw [cdouble_sub_eq]
    show cdouble.equal (finite sy 0 0 + finite _ 0 0) (finite (!sy) 0 0) = true
    rw [cdouble_add_zero_right, magnitude_zero, if_pos rfl]
    exact cdouble_equal_zero _ _
  · rw [if_neg hM]
    obtain ⟨e2, f2, hc, hm2⟩ := cdouble_two_mul sy ey fy h
    rw [hc, cdouble_reflect_components]
    refine ⟨cdouble_sub_zero_equal _ _ _ _, ?_, cdouble_sub_zero_equal _ _ _ _⟩
    rw [cdouble_sub_eq]
    show cdouble.equal (finite sy ey fy + finite (!sy) e2 f2) (finite (!sy) ey fy) = true
    have hne : ¬ (sy = !sy) := by cases sy <;> decide
    have hpos : 0 < magnitude ey fy := Nat.pos_of_ne_zero hM
    rw [cdouble_add_finite, if_neg hne, hm2, if_neg (by omega), if_neg (by omega),
      show 2 * magnitude ey fy - magnitude ey fy = magnitude ey fy by omega,
      round_dyadic_magnitude_zero]
    exact cdouble_equal_self _ _ _

theorem round_dyadic_overflow (s : Bool) (c i k : Nat) (hc1 : 4503599627370496 ≤ c)
    (hc2 : c < 9007199254740992) (hk : k + 972 ≤ i) :
    round_dyadic s (c * 2 ^ i) k = infinity s := by
  have hpi : 0 < 2 ^ i := Nat.two_pow_pos _
  have hn : c * 2 ^ i ≠ 0 := Nat.mul_ne_zero (by omega) (by omega)
  have hlo : 2 ^ (52 + i) ≤ c * 2 ^ i := by
    rw [Nat.pow_add 2 52]
    exact Nat.mul_le_mul_right _ (le_trans (by norm_num) hc1)
  have hhi : c * 2 ^ i < 2 ^ (52 + i + 1) := by
    rw [show 52 + i + 1 = 53 + i by omega, Nat.pow_add 2 53]
    exact Nat.mul_lt_mul_of_lt_of_le (lt_of_lt_of_le hc2 (by norm_num)) (le_refl _) hpi
  have hL := log2_eq_of_bounds _ _ hlo hhi
  have hk2 : k ≤ Nat.log2 (c * 2 ^ i) + 1022 := by omega
  have h52 : 52 ≤ Nat.log2 (c * 2 ^ i) := by omega
  have hsh : Nat.log2 (c * 2 ^ i) - 52 = i := by omega
  have hne53 : ¬ (c = 9007199254740992) := by omega
  have hE : ¬ (Nat.log2 (c * 2 ^ i) + 1023 - k < 2047) := by omega
  unfold round_dyadic
  rw [if_neg hn]
  simp only [if_pos hk2, if_pos h52, hsh, shift_round_mul_pow, if_neg hne53, dif_neg hE]

theorem cdouble_two_mul_max (s : Bool) (f : Fin 4503599627370496) :
    finite false ⟨1024, by decide⟩ 0 * finite s ⟨2046, by decide⟩ f = infinity s := by
  have hf := f.isLt
  rw [cdouble_mul_finite, magnitude_two, magnitude_normal _ _ (by decide), Bool.false_xor]
  have h1 : ((⟨2046, by decide⟩ : Fin 2047) : Nat) - 1 = 2045 := rfl
  have h2 : 2 ^ 2045 * 2 ^ 1075 = 2 ^ 3120 := two_pow_mul 2045 1075 3120 rfl
  have h3 : 2 ^ 1075 * ((4503599627370496 + f.val) * 2 ^ 2045)
      = (4503599627370496 + f.val) * 2 ^ 3120 := by
    rw [← h2]; ring
  rw [h1, h3]
  exact round_dyadic_overflow s _ 3120 2148 (by omega) (by omega) (by decide)

theorem cdouble_mul_finite_infinity (s t : Bool) (e : Fin 2047)
    (f : Fin 4503599627370496) :
    finite s e f * infinity t = if magnitude e f = 0 then nan else infinity (xor s t) :=
  rfl

theorem cdouble_zero_mul_infinity (t s : Bool) : finite t 0 0 * infinity s = nan := by
  rw [cdouble_mul_finite_infinity, magnitude_zero, if_pos rfl]

theorem cdouble_one_mul_infinity (s : Bool) :
    finite false ⟨1023, by decide⟩ 0 * infinity s = infinity s := by
  rw [cdouble_mul_finite_infinity]
  have hM : magnitude ⟨1023, by decide⟩ 0 ≠ 0 := by
    intro h
    have := (magnitude_eq_zero _ _ h).1
    exact absurd this (by decide)
  rw [if_neg hM, Bool.false_xor]

theorem cdouble_sub_nan (s : Bool) (e : Fin 2047) (f : Fin 4503599627370496) :
    finite s e f - nan = nan := rfl

theorem cdouble_sub_infinity (s t : Bool) (e : Fin 2047) (f : Fin 4503599627370496) :
    finite s e f - infinity t = infinity (!t) := rfl

theorem cdouble_reflect_overflow (sx sy sz : Bool) (ex ez : Fin 2047)
    (fx fy fz : Fin 4503599627370496) :
    (vector3.mk (finite sx ex fx) (finite sy ⟨2046, by decide⟩ fy)
        (finite sz ez fz)).reflect ⟨0, 1, 0⟩
      = ⟨nan, infinity (!sy), nan⟩ := by
  have hM : magnitude ⟨2046, by decide⟩ fy ≠ 0 := by
    intro h
    have := (magnitude_eq_zero _ _ h).1
    exact absurd this (by decide)
  unfold vector3.reflect
  rw [cdouble_dot_normal_y, if_neg hM, cdouble_two_eq, cdouble_two_mul_max,
    cdouble_zero_eq, cdouble_one_eq]
  simp only [vector3.op_sub, vector3.op_mul, cdouble_zero_mul_infinity,
    cdouble_one_mul_infinity, cdouble_sub_nan, cdouble_sub_infinity]

/-- C11, as stated, fails on the `double` instantiation: for `v = (1, 2^1023, 1)` the
product `2 * v.dot(n)` overflows to infinity, `0 * infinity` is a NaN, and
`v.reflect(vector(0, 1, 0))` is `(NaN, -infinity, NaN)`, not `(1, -2^1023, 1)`. -/
theorem reflect_normal_y_overflow :
    (vector3.mk (1 : cdouble) (finite false ⟨2046, by decide⟩ 0) 1).reflect ⟨0, 1, 0⟩
        = ⟨nan, infinity true, nan⟩ ∧
      ¬ ((vector3.mk (1 : cdouble) (finite false ⟨2046, by decide⟩ 0) 1).reflect ⟨0, 1, 0⟩
        = ⟨1, -(finite false ⟨2046, by decide⟩ 0), 1⟩) ∧
      cdouble.equal ((vector3.mk (1 : cdouble) (finite false ⟨2046, by decide⟩ 0)
        1).reflect ⟨0, 1, 0⟩).y (-(finite false ⟨2046, by decide⟩ 0)) = false := by
  have hv : vector3.mk (1 : cdouble) (finite false ⟨2046, by decide⟩ 0) 1
      = vector3.mk (finite false ⟨1023, by decide⟩ 0) (finite false ⟨2046, by decide⟩ 0)
          (finite false ⟨1023, by decide⟩ 0) := by
    rw [cdouble_one_eq]
  have hval : (vector3.mk (1 : cdouble) (finite false ⟨2046, by decide⟩ 0) 1).reflect
      ⟨0, 1, 0⟩ = ⟨nan, infinity true, nan⟩ := by
    rw [hv]
    exact cdouble_reflect_overflow _ _ _ _ _ _ _ _
  refine ⟨hval, ?_, ?_⟩
  · rw [hval]
    intro h
    have hy := congrArg vector3.y h
    exact cdouble.noConfusion hy
  · rw [hval]
    rfl

/-- C11, amended: over a commutative ring of scalars, `v.reflect(vector(0, 1, 0))` is
`(v.x, -v.y, v.z)` for every vector `v`.  On `double` the three components compare equal
(`==`) to `(v.x, -v.y, v.z)` for every `v` with finite components and `|v.y| < 2^1023`,
and for finite components with `|v.y| >= 2^1023` the result is `(NaN, -+infinity, NaN)`.
On the reals the normal of the demonstration, `vector(0,1,0).unit()`, is `(0,1,0)`, its
incident `vector(2,-1,1).unit()` is within `0.001` of `(0.816, -0.408, 0.408)`, and the
reflected vector is the incident with its Y component negated, within `0.001` of
`(0.816, 0.408, 0.408)`. -/
theorem reflect_normal_y :
    (∀ (T : Type) [CommRing T] (v : vector3 T),
        v.reflect ⟨0, 1, 0⟩ = ⟨v.x, -v.y, v.z⟩) ∧
      (∀ (sx sy sz : Bool) (ex ey ez : Fin 2047) (fx fy fz : Fin 4503599627370496),
        ey.val < 2046 →
        cdouble.equal ((vector3.mk (finite sx ex fx) (finite sy ey fy)
          (finite sz ez fz)).reflect ⟨0, 1, 0⟩).x (finite sx ex fx) = true ∧
        cdouble.equal ((vector3.mk (finite sx ex fx) (finite sy ey fy)
          (finite sz ez fz)).reflect ⟨0, 1, 0⟩).y (-(finite sy ey fy)) = true ∧
        cdouble.equal ((vector3.mk (finite sx ex fx) (finite sy ey fy)
          (finite sz ez fz)).reflect ⟨0, 1, 0⟩).z (finite sz ez fz) = true) ∧
      (∀ (sx sy sz : Bool) (ex ez : Fin 2047) (fx fy fz : Fin 4503599627370496),
        (vector3.mk (finite sx ex fx) (finite sy ⟨2046, by decide⟩ fy)
          (finite sz ez fz)).reflect ⟨0, 1, 0⟩ = ⟨nan, infinity (!sy), nan⟩) ∧
      (vector3.mk (0 : ℝ) 1 0).unit = ⟨0, 1, 0⟩ ∧
      (|(vector3.mk (2 : ℝ) (-1) 1).unit.x - 0.816| < 0.001 ∧
        |(vector3.mk (2 : ℝ) (-1) 1).unit.y - (-0.408)| < 0.001 ∧
        |(vector3.mk (2 : ℝ) (-1) 1).unit.z - 0.408| < 0.001) ∧
      ((vector3.mk (2 : ℝ) (-1) 1).unit.reflect (vector3.mk (0 : ℝ) 1 0).unit
        = ⟨(vector3.mk (2 : ℝ) (-1) 1).unit.x, -(vector3.mk (2 : ℝ) (-1) 1).unit.y,
           (vector3.mk (2 : ℝ) (-1) 1).unit.z⟩) ∧
      (|((vector3.mk (2 : ℝ) (-1) 1).unit.reflect (vector3.mk (0 : ℝ) 1 0).unit).x
          - 0.816| < 0.001 ∧
        |((vector3.mk (2 : ℝ) (-1) 1).unit.reflect (vector3.mk (0 : ℝ) 1 0).unit).y
          - 0.408| < 0.001 ∧
        |((vector3.mk (2 : ℝ) (-1) 1).unit.reflect (vector3.mk (0 : ℝ) 1 0).unit).z
          - 0.408| < 0.001) := by
  have hgen : ∀ (T : Type) [CommRing T] (v : vector3 T),
      v.reflect ⟨0, 1, 0⟩ = ⟨v.x, -v.y, v.z⟩ := by
    intro T _ v
    simp only [vector3.reflect, vector3.op_sub, vector3.op_mul, vector3.dot,
      vector3.mk.injEq]
    refine ⟨?_, ?_, ?_⟩ <;> ring
  have hn : (vector3.mk (0 : ℝ) 1 0).unit = ⟨0, 1, 0⟩ :=
    unit_of_length_one_real _
      (length_real_of_sq _ 1 zero_le_one (by simp [vector3.length_squared]))
  have hy : |(-1 : ℝ) / Real.sqrt 6 - (-0.408)| < 0.001 := by
    have h := one_div_sqrt_six_near
    rw [abs_lt] at h ⊢
    rw [neg_div]
    constructor <;> linarith [h.1, h.2]
  have hy2 : |-((-1 : ℝ) / Real.sqrt 6) - 0.408| < 0.001 := by
    rw [neg_div, neg_neg]
    exact one_div_sqrt_six_near
  refine ⟨hgen, fun sx sy sz ex ey ez fx fy fz h =>
      cdouble_reflect_finite sx sy sz ex ey ez fx fy fz h,
    fun sx sy sz ex ez fx fy fz => cdouble_reflect_overflow sx sy sz ex ez fx fy fz,
    hn, ?_, ?_, ?_⟩
  · rw [unit_demo_incident]
    exact ⟨two_div_sqrt_six_near, hy, one_div_sqrt_six_near⟩
  · rw [hn]
    exact hgen ℝ _
  · rw [hn, hgen ℝ _, unit_demo_incident]
    exact ⟨two_div_sqrt_six_near, hy2, one_div_sqrt_six_near⟩

theorem reflect_normal_y_witness :
    (1023 : Nat) < 2046 ∧
      cdouble.equal ((vector3.mk (finite false ⟨1023, by decide⟩ 0)
        (finite true ⟨1023, by decide⟩ 0) (finite false 0 0)).reflect ⟨0, 1, 0⟩).y
        (-(finite true ⟨1023, by decide⟩ 0)) = true :=
  ⟨by decide,
   (reflect_normal_y.2.1 false true false ⟨1023, by decide⟩ ⟨1023, by decide⟩ 0 0 0 0
      (by decide)).2.1⟩

end double_scalars

/-- C12: over a division ring of scalars with any square root, a vector whose `length()`
is exactly `1` is returned unchanged by `unit()`. -/
theorem unit_of_length_eq_one {T : Type} [DivisionRing T] [Sqrt T] [DecidableEq T]
    (v : vector3 T) (h : v.length = 1) : v.unit = v := by
  simp [vector3.unit, h, vector3.op_div]

theorem unit_of_length_eq_one_witness :
    (vector3.mk (0 : ℝ) 1 0).length = 1 ∧ (vector3.mk (0 : ℝ) 1 0).unit = ⟨0, 1, 0⟩ :=
  ⟨length_real_of_sq _ 1 zero_le_one (by simp [vector3.length_squared]),
   unit_of_length_eq_one _
     (length_real_of_sq _ 1 zero_le_one (by simp [vector3.length_squared]))⟩

/-- C13: on the reals `vector(2, -1, 1).unit()` is
`(2/sqrt(6), -1/sqrt(6), 1/sqrt(6))`, each component within `0.001` of
`(0.816, -0.408, 0.408)`, and its length is `1`. -/
theorem unit_two_neg_one_one :
    (vector3.mk (2 : ℝ) (-1) 1).unit
        = ⟨2 / Real.sqrt 6, -1 / Real.sqrt 6, 1 / Real.sqrt 6⟩ ∧
      |2 / Real.sqrt 6 - (0.816 : ℝ)| < 0.001 ∧
      |-1 / Real.sqrt 6 - (-0.408 : ℝ)| < 0.001 ∧
      |1 / Real.sqrt 6 - (0.408 : ℝ)| < 0.001 ∧
      (vector3.mk (2 : ℝ) (-1) 1).unit.length = 1 := by
  have hpos : (0 : ℝ) < Real.sqrt 6 := by linarith [sqrt_six_bounds.1]
  have hne : (vector3.mk (2 : ℝ) (-1) 1).length ≠ 0 := by
    rw [length_demo_incident]; exact ne_of_gt hpos
  refine ⟨unit_demo_incident, two_div_sqrt_six_near, ?_, one_div_sqrt_six_near, ?_⟩
  · have h := one_div_sqrt_six_near
    rw [abs_lt] at h ⊢
    rw [neg_div]
    constructor <;> linarith [h.1, h.2]
  · rw [unit_eq_op_div_real _ hne]
    exact length_op_div_length_real _ hne

/-! ## Addition -/

/-- C14: `(a + b) + c` equals `a + (b + c)` for the component-wise sum, whenever the sum
of scalars is associative. -/
theorem op_add_assoc {T : Type} [AddSemigroup T] (a b c : vector3 T) :
    (a.op_add b).op_add c = a.op_add (b.op_add c) ∧
      a.op_add b = ⟨a.x + b.x, a.y + b.y, a.z + b.z⟩ := by
  refine ⟨?_, rfl⟩
  simp only [vector3.op_add, add_assoc]

/-! ## Identities between cross, dot and length -/

/-- C15: over a commutative ring of scalars, `a.cross(b)` is orthogonal to both inputs:
`a.dot(a.cross(b)) = 0` and `b.dot(a.cross(b)) = 0`. -/
theorem dot_cross_eq_zero {T : Type} [CommRing T] (a b : vector3 T) :
    a.dot (a.cross b) = 0 ∧ b.dot (a.cross b) = 0 := by
  simp only [vector3.dot, vector3.cross]
  constructor <;> ring

/-- C16: on the reals, `v.unit() * v.length()` equals `v` for every vector `v`, the zero
vector included; and for a vector with a non-zero component the factor `1 / v.length()`
is positive and `v.unit()` is `v` scaled by it. -/
theorem unit_op_mul_length (v : vector3 ℝ) :
    v.unit.op_mul v.length = v ∧
      ((v.x ≠ 0 ∨ v.y ≠ 0 ∨ v.z ≠ 0) →
        0 < 1 / v.length ∧ v.unit = v.op_mul (1 / v.length)) ∧
      (vector3.mk (0 : ℝ) 0 0).unit.op_mul (vector3.mk (0 : ℝ) 0 0).length
        = ⟨0, 0, 0⟩ := by
  have hall : ∀ w : vector3 ℝ, w.unit.op_mul w.length = w := by
    intro w
    by_cases hl : w.length = 0
    · obtain ⟨hx, hy, hz⟩ := (length_eq_zero_real w).mp hl
      obtain ⟨wx, wy, wz⟩ := w
      simp only at hx hy hz
      rw [unit_eq_default_real _ hl]
      simp [vector3.op_mul, hx, hy, hz]
    · rw [unit_eq_op_div_real w hl]
      obtain ⟨wx, wy, wz⟩ := w
      simp only [vector3.op_div, vector3.op_mul, vector3.mk.injEq]
      exact ⟨div_mul_cancel₀ _ hl, div_mul_cancel₀ _ hl, div_mul_cancel₀ _ hl⟩
  refine ⟨hall v, ?_, hall _⟩
  intro h
  have hpos := length_pos_real v h
  have hne : v.length ≠ 0 := ne_of_gt hpos
  refine ⟨one_div_pos.mpr hpos, ?_⟩
  rw [unit_eq_op_div_real v hne]
  simp only [vector3.op_div, vector3.op_mul, vector3.mk.injEq]
  exact ⟨div_eq_mul_one_div _ _, div_eq_mul_one_div _ _, div_eq_mul_one_div _ _⟩

/-- C18: over a commutative ring of scalars, for every vector `v` and every normal `n`
with `n.dot(n) = 1`, reflection keeps the squared length and negates the component
along the normal: `v.reflect(n).length_squared() == v.length_squared()` and
`v.reflect(n).dot(n) == -(v.dot(n))`. -/
theorem reflect_preserves_length_squared {T : Type} [CommRing T] (v n : vector3 T)
    (h : n.dot n = 1) :
    (v.reflect n).length_squared = v.length_squared ∧
      (v.reflect n).dot n = -(v.dot n) := by
  obtain ⟨vx, vy, vz⟩ := v
  obtain ⟨nx, ny, nz⟩ := n
  simp only [vector3.dot] at h
  simp only [vector3.reflect, vector3.op_sub, vector3.op_mul, vector3.dot,
    vector3.length_squared]
  constructor
  · linear_combination
      (4 * (vx * nx + vy * ny + vz * nz) * (vx * nx + vy * ny + vz * nz)) * h
  · linear_combination (-2 * (vx * nx + vy * ny + vz * nz)) * h

theorem reflect_preserves_length_squared_witness :
    (vector3.mk (0 : ℤ) 1 0).dot ⟨0, 1, 0⟩ = 1 ∧
      ((vector3.mk (1 : ℤ) 2 3).reflect ⟨0, 1, 0⟩).length_squared
        = (vector3.mk (1 : ℤ) 2 3).length_squared ∧
      ((vector3.mk (1 : ℤ) 2 3).reflect ⟨0, 1, 0⟩).dot ⟨0, 1, 0⟩
        = -((vector3.mk (1 : ℤ) 2 3).dot ⟨0, 1, 0⟩) :=
  ⟨by decide, reflect_preserves_length_squared ⟨1, 2, 3⟩ ⟨0, 1, 0⟩ (by decide)⟩

/-- C19: over a commutative ring of scalars the Lagrange identity holds,
`a.cross(b).length_squared() == a.length_squared() * b.length_squared()
- a.dot(b) * a.dot(b)`, and `v.length_squared() == v.dot(v)` for every vector. -/
theorem lagrange_identity {T : Type} [CommRing T] (a b : vector3 T) :
    (a.cross b).length_squared
        = a.length_squared * b.length_squared - a.dot b * a.dot b ∧
      a.length_squared = a.dot a := by
  refine ⟨?_, rfl⟩
  simp only [vector3.cross, vector3.length_squared, vector3.dot]
  ring

/-! ## Idempotence and scale invariance of `unit` -/

theorem length_op_mul_real (v : vector3 ℝ) (k : ℝ) (hk : 0 ≤ k) :
    (v.op_mul k).length = k * v.length := by
  have hl0 : 0 ≤ v.length := Real.sqrt_nonneg _
  have hsq := length_mul_self_real v
  apply length_real_of_sq (v.op_mul k) (k * v.length) (mul_nonneg hk hl0)
  have : (v.op_mul k).length_squared = k * k * v.length_squared := by
    simp only [vector3.op_mul, vector3.length_squared]
    ring
  rw [this]
  linear_combination (-(k * k)) * hsq

/-- C20: on the reals `unit()` is idempotent, `v.unit().unit() == v.unit()`, and
invariant under positive scaling, `(v * k).unit() == v.unit()` for every `k > 0`; at the
zero vector every side is the zero vector. -/
theorem unit_idem_and_scale_invariant (v : vector3 ℝ) :
    v.unit.unit = v.unit ∧
      (∀ k : ℝ, 0 < k → (v.op_mul k).unit = v.unit) ∧
      ((vector3.mk (0 : ℝ) 0 0).unit = ⟨0, 0, 0⟩ ∧
        (vector3.mk (0 : ℝ) 0 0).unit.unit = ⟨0, 0, 0⟩ ∧
        ∀ k : ℝ, ((vector3.mk (0 : ℝ) 0 0).op_mul k).unit = ⟨0, 0, 0⟩) := by
  have hz : (vector3.mk (0 : ℝ) 0 0).length = 0 :=
    (length_eq_zero_real _).mpr ⟨rfl, rfl, rfl⟩
  have hzu : (vector3.mk (0 : ℝ) 0 0).unit = ⟨0, 0, 0⟩ := unit_eq_default_real _ hz
  refine ⟨?_, ?_, hzu, ?_, ?_⟩
  · by_cases hl : v.length = 0
    · rw [unit_eq_default_real v hl]
      exact hzu
    · rw [unit_eq_op_div_real v hl]
      exact unit_of_length_one_real _ (length_op_div_length_real v hl)
  · intro k hk
    have hlen := length_op_mul_real v k (le_of_lt hk)
    by_cases hl : v.length = 0
    · have hl2 : (v.op_mul k).length = 0 := by rw [hlen, hl, mul_zero]
      rw [unit_eq_default_real v hl, unit_eq_default_real _ hl2]
    · have hk0 : k ≠ 0 := ne_of_gt hk
      have hl2 : (v.op_mul k).length ≠ 0 := by
        rw [hlen]; exact mul_ne_zero hk0 hl
      rw [unit_eq_op_div_real v hl, unit_eq_op_div_real _ hl2, hlen]
      simp only [vector3.op_div, vector3.op_mul, vector3.mk.injEq]
      refine ⟨?_, ?_, ?_⟩ <;> field_simp <;> ring
  · rw [hzu]
    exact hzu
  · intro k
    apply unit_eq_default_real
    rw [length_eq_zero_real]
    simp [vector3.op_mul]

/-! ## Text rendering -/

/-- C17: for every scalar type with numeric conversion `put`, every vector `v` and every
precision `p`, `v.to_string(p)` is the converted `x`, then `", "`, then the converted `y`,
then `", "`, then the converted `z`, each converted at precision `p`, with nothing before
or after; with the default conversion of floating scalars, `to_string(3)` on
`vector(1.0, 2.0, 3.0)` is the text `"1, 2, 3"`. -/
theorem to_string_format :
    (∀ (T : Type) (put : Int → T → String) (v : vector3 T) (p : Int),
        v.to_string put p = put p v.x ++ ", " ++ put p v.y ++ ", " ++ put p v.z) ∧
      (vector3.mk (1 : ℚ) 2 3).to_string put_general 3 = "1, 2, 3" := by
  refine ⟨fun T put v p => ?_, by decide⟩
  simp only [vector3.to_string, stringstream.fresh, stringstream.set_precision,
    stringstream.put_scalar, stringstream.put_text, String.empty_append]

end math
